import Mathlib

/-!
Verification of the QsrMail SMTP client library (qsrmail) against its design
specification.  Bytes are modelled as `Nat` (values < 256 on real inputs);
byte strings as `List Nat`.  Machine-integer arithmetic from the C++ source is
translated to `Nat`/`Int` arithmetic with explicit `% 2^w` reductions; bit
extractions such as `(x & 0xfc0000) >> 18` are translated to their exact
arithmetic form `x / 262144 % 64`.
-/

namespace QsrMail

/-! ## Base64 encoder (qsrmailbase64encoder.cpp / qsrmailbase64encoder_p.h) -/

/-- ASCII codes of `base64dict` ("A-Z a-z 0-9 + /"), qsrmailbase64encoder.cpp line 67. -/
def b64dict : List Nat :=
  [65, 66, 67, 68, 69, 70, 71, 72, 73, 74, 75, 76, 77, 78, 79, 80, 81, 82,
   83, 84, 85, 86, 87, 88, 89, 90,
   97, 98, 99, 100, 101, 102, 103, 104, 105, 106, 107, 108, 109, 110, 111,
   112, 113, 114, 115, 116, 117, 118, 119, 120, 121, 122,
   48, 49, 50, 51, 52, 53, 54, 55, 56, 57, 43, 47]

/-- `QsrMailBase64EncoderPrivate::put` (qsrmailbase64encoder_p.h lines 42-53):
emit one encoded character, inserting CRLF and resetting the column counter
when `lineWidth > 0` and the incremented counter reaches `lineWidth`.
Returns the emitted bytes and the new `lineChars` value.  (When
`lineWidth == 0` the `++lineChars` is not evaluated, short-circuit.) -/
def b64put (lw lc : Nat) (c : Nat) : List Nat × Nat :=
  if 0 < lw then
    if lw ≤ lc + 1 then ([c, 13, 10], 0) else ([c], lc + 1)
  else ([c], lc)

/-- `QsrMailBase64EncoderPrivate::putQ` (qsrmailbase64encoder_p.h lines 55-67):
emit the 4 characters of one quantum, padding with `=` (61) for short quanta.
`(qBuffer & 0xfc0000) >> 18` is `qBuffer / 262144 % 64`, etc. -/
def b64putQ (lw lc : Nat) (qBuffer qSize : Nat) : List Nat × Nat :=
  let pad := 3 - qSize
  let r1 := b64put lw lc (b64dict.getD (qBuffer / 262144 % 64) 0)
  let r2 := b64put lw r1.2 (b64dict.getD (qBuffer / 4096 % 64) 0)
  let r3 := if pad = 2 then b64put lw r2.2 61
            else b64put lw r2.2 (b64dict.getD (qBuffer / 64 % 64) 0)
  let r4 := if 1 ≤ pad then b64put lw r3.2 61
            else b64put lw r3.2 (b64dict.getD (qBuffer % 64) 0)
  (r1.1 ++ r2.1 ++ r3.1 ++ r4.1, r4.2)

/-- Complete-output run of `QsrMailBase64EncoderPrivate::readDataImpl`
(qsrmailbase64encoder.cpp lines 124-174) over the whole source device with
unbounded output capacity: the quantum accumulator is filled 3 bytes at a
time (`qBuffer |= c << 16 & 0xff0000` is `(c % 256) * 65536`, …) and flushed
through `putQ`; the final short quantum is flushed padded when the device is
at end. -/
def b64encodeGo (lw : Nat) : Nat → List Nat → List Nat
  | _, [] => []
  | lc, [b0] => (b64putQ lw lc ((b0 % 256) * 65536) 1).1
  | lc, [b0, b1] => (b64putQ lw lc ((b0 % 256) * 65536 + (b1 % 256) * 256) 2).1
  | lc, b0 :: b1 :: b2 :: rest =>
    let r := b64putQ lw lc ((b0 % 256) * 65536 + (b1 % 256) * 256 + b2 % 256) 3
    r.1 ++ b64encodeGo lw r.2 rest

/-- The encoder's concatenated output for input `bs` at line width `lw`
(initial `lineChars = 0`, reset in `QsrMailBase64Encoder::open`). -/
def b64encodeAll (lw : Nat) (bs : List Nat) : List Nat := b64encodeGo lw 0 bs

/-- One unfolded 4-character quantum (no line folding). -/
def enc4 (q pad : Nat) : List Nat :=
  [b64dict.getD (q / 262144 % 64) 0,
   b64dict.getD (q / 4096 % 64) 0,
   if pad = 2 then 61 else b64dict.getD (q / 64 % 64) 0,
   if 1 ≤ pad then 61 else b64dict.getD (q % 64) 0]

/-- The unfolded Base64 character stream (no CRLF insertion).  This is also
the model of Qt's `QByteArray::toBase64` used by the authentication code. -/
def b64raw : List Nat → List Nat
  | [] => []
  | [b0] => enc4 ((b0 % 256) * 65536) 2
  | [b0, b1] => enc4 ((b0 % 256) * 65536 + (b1 % 256) * 256) 1
  | b0 :: b1 :: b2 :: rest =>
    enc4 ((b0 % 256) * 65536 + (b1 % 256) * 256 + b2 % 256) 0 ++ b64raw rest

/-- Line folding pass: the effect of chaining `put` over a character stream,
separated from the encoding itself. -/
def foldW (lw : Nat) : Nat → List Nat → List Nat
  | _, [] => []
  | lc, c :: cs =>
    if 0 < lw then
      if lw ≤ lc + 1 then c :: 13 :: 10 :: foldW lw 0 cs
      else c :: foldW lw (lc + 1) cs
    else c :: foldW lw lc cs

/-- Final column counter of the folding pass. -/
def foldLc (lw : Nat) : Nat → List Nat → Nat
  | lc, [] => lc
  | lc, _ :: cs =>
    if 0 < lw then
      if lw ≤ lc + 1 then foldLc lw 0 cs else foldLc lw (lc + 1) cs
    else foldLc lw lc cs

/-- Digit value of one Base64 alphabet character, as in Qt's
`QByteArray::fromBase64` decoder loop; non-alphabet bytes (including CR, LF
and `=`) yield `none` and are skipped. -/
def b64val (ch : Nat) : Option Nat :=
  if 65 ≤ ch ∧ ch ≤ 90 then some (ch - 65)
  else if 97 ≤ ch ∧ ch ≤ 122 then some (ch - 97 + 26)
  else if 48 ≤ ch ∧ ch ≤ 57 then some (ch - 48 + 52)
  else if ch = 43 then some 62
  else if ch = 47 then some 63
  else none

/-- Bit-accumulator Base64 decoding loop (`buf`, `nbits` state):
`buf = (buf << 6) | d` is `buf * 64 + d`; on `nbits >= 8` the byte
`buf >> nbits` is emitted (stored through a `char`, hence `% 256`) and
`buf &= (1 << nbits) - 1` keeps the low bits. -/
def fromB64Go : Nat → Nat → List Nat → List Nat
  | _, _, [] => []
  | buf, nbits, ch :: rest =>
    match b64val ch with
    | none => fromB64Go buf nbits rest
    | some d =>
      let buf1 := buf * 64 + d
      let nbits1 := nbits + 6
      if 8 ≤ nbits1 then
        (buf1 / 2 ^ (nbits1 - 8)) % 256 ::
          fromB64Go (buf1 % 2 ^ (nbits1 - 8)) (nbits1 - 8) rest
      else fromB64Go buf1 nbits1 rest

/-- Base64 decoding of a byte string. -/
def fromBase64 (bs : List Nat) : List Nat := fromB64Go 0 0 bs

/-- Split a byte string into its lines at CRLF separators. -/
def crlfSplit : List Nat → List (List Nat)
  | [] => [[]]
  | [c] =>
    match crlfSplit [] with
    | [] => [[c]]
    | l :: ls => (c :: l) :: ls
  | c :: r :: rest =>
    if c = 13 ∧ r = 10 then [] :: crlfSplit rest
    else
      match crlfSplit (r :: rest) with
      | [] => [[c]]
      | l :: ls => (c :: l) :: ls

/-! ## Quoted-printable encoder (qsrmailqpencoder.cpp) -/

/-- ASCII codes of `qpdict` ("0123456789ABCDEF"), qsrmailqpencoder.cpp line 70. -/
def qpdict : List Nat :=
  [48, 49, 50, 51, 52, 53, 54, 55, 56, 57, 65, 66, 67, 68, 69, 70]

/-- Printability test of qsrmailqpencoder.cpp lines 175-177.  `char` is
signed, so bytes ≥ 128 appear negative and fail every range test, matching
the plain `Nat` comparisons here. -/
def qpPrintable (c : Nat) : Bool :=
  (33 ≤ c && c ≤ 60) || (62 ≤ c && c ≤ 126) || c == 9 || c == 32

/-- Result of one character-emission attempt of the read loop: bytes
written, space left of the read request, new `lineChars`, and whether the
character was consumed (`false` means `ungetChar(c)` followed by `break`). -/
structure QpEmitResult where
  out : List Nat
  remaining : Int
  lineChars : Nat
  consumed : Bool
deriving Repr, DecidableEq

/-- Emission block of `QsrMailQpEncoderPrivate::readDataImpl`
(qsrmailqpencoder.cpp lines 168-203): dot-at-line-start forcing, the
printability test, the soft line break `=` CR LF when
`lineChars + (isPrintable ? 2 : 4) >= lineWidth`, then the character either
verbatim or as `=` plus two hex digits (`(c >> 4) & 0x0f` is
`c % 256 / 16`).  `ENSURE_SPACE` failures abort with `consumed = false`,
keeping whatever was already written. -/
def qpEmit (lw : Nat) (c : Nat) (force : Bool) (remaining : Int) (lc : Nat) : QpEmitResult :=
  let force1 := force || (lc == 0 && c == 46)
  let isPrintable := !force1 && qpPrintable c
  if lw ≤ lc + (if isPrintable then 2 else 4) then
    if remaining < 3 then ⟨[], remaining, lc, false⟩
    else if isPrintable then ⟨[61, 13, 10, c], remaining - 4, 1, true⟩
    else if remaining - 3 < 3 then ⟨[61, 13, 10], remaining - 3, 0, false⟩
    else ⟨[61, 13, 10, 61, qpdict.getD (c % 256 / 16) 0, qpdict.getD (c % 16) 0],
          remaining - 6, 3, true⟩
  else
    if isPrintable then ⟨[c], remaining - 1, lc + 1, true⟩
    else if remaining < 3 then ⟨[], remaining, lc, false⟩
    else ⟨[61, qpdict.getD (c % 256 / 16) 0, qpdict.getD (c % 16) 0],
          remaining - 3, lc + 3, true⟩

/-- Lines 159-203 for a current character `cc` that did not take the CRLF
branch: the text-mode bare-LF conversion, then the emission block. -/
def qpTail (tm : Bool) (lw : Nat) (cc : Nat) (remaining : Int) (lc : Nat) : QpEmitResult :=
  if tm && cc == 10 then
    if remaining < 2 then ⟨[], remaining, lc, false⟩
    else ⟨[13, 10], remaining - 2, 0, true⟩
  else qpEmit lw cc false remaining lc

/-- One call of `QsrMailQpEncoderPrivate::readDataImpl`
(qsrmailqpencoder.cpp lines 104-211) on a buffered random-access source:
`input` is the unread remainder of the device, `remaining` the free output
space (`maxlen` counted down), `lc` the persistent `lineChars`.  Returns the
bytes written, the unread remainder after the call (including `ungetChar`
pushbacks) and the new `lineChars`.

Faithful quirks: a TAB/SPACE whose 2-byte peek-ahead fails is pushed back
and the loop breaks (lines 129-139); a bare CR reads the next byte, pushes
it back and falls through processing that byte instead, dropping the CR and
leaving the byte in the stream (lines 141-157), so a later `ENSURE_SPACE`
failure in the fall-through pushes that byte back twice. -/
def qpReadDataGo (tm : Bool) (lw : Nat) :
    Nat → List Nat → Int → Nat → List Nat × List Nat × Nat
  | _, [], _, lc => ([], [], lc)
  | 0, input, _, lc => ([], input, lc)
  | fuel + 1, c :: rest, remaining, lc =>
    if remaining ≤ 0 then ([], c :: rest, lc)
    else if c == 9 || c == 32 then
      match rest with
      | r1 :: r2 :: tl =>
        let e := qpEmit lw c (r1 == 13 && r2 == 10) remaining lc
        if e.consumed then
          let r := qpReadDataGo tm lw fuel (r1 :: r2 :: tl) e.remaining e.lineChars
          (e.out ++ r.1, r.2.1, r.2.2)
        else (e.out, c :: r1 :: r2 :: tl, e.lineChars)
      | _ => ([], c :: rest, lc)
    else if c == 13 then
      match rest with
      | [] => ([], [13], lc)
      | c2 :: rest2 =>
        if c2 == 10 then
          if remaining < 2 then ([], 10 :: rest2, lc)
          else
            let r := qpReadDataGo tm lw fuel rest2 (remaining - 2) 0
            (13 :: 10 :: r.1, r.2.1, r.2.2)
        else
          let e := qpTail tm lw c2 remaining lc
          if e.consumed then
            let r := qpReadDataGo tm lw fuel (c2 :: rest2) e.remaining e.lineChars
            (e.out ++ r.1, r.2.1, r.2.2)
          else (e.out, c2 :: c2 :: rest2, e.lineChars)
    else
      let e := qpTail tm lw c remaining lc
      if e.consumed then
        let r := qpReadDataGo tm lw fuel rest e.remaining e.lineChars
        (e.out ++ r.1, r.2.1, r.2.2)
      else (e.out, c :: rest, e.lineChars)

/-- One call of the read loop on `input`.  Every loop iteration consumes at
least one input byte, so `input.length` fuel always suffices; the fuel only
makes the recursion structural. -/
def qpReadData (tm : Bool) (lw : Nat) (input : List Nat) (remaining : Int) (lc : Nat) :
    List Nat × List Nat × Nat :=
  qpReadDataGo tm lw input.length input remaining lc

/-- `QsrMailAbstractEncoderPrivate::deviceAtEnd`
(qsrmailabstractencoder_p.h lines 38-45) for a random-access (non-sequential)
source: `device->atEnd()`, i.e. no unread bytes remain. -/
def deviceAtEndRA (input : List Nat) : Bool := input.isEmpty

/-! ## MD5 (model of `QCryptographicHash::hash(…, Md5)`, RFC 1321)

The transport's CRAM-MD5 code calls Qt's MD5; the algorithm is embedded here
executably so the RFC 2195 reference vector can be evaluated. -/

/-- Fuel-driven worker for `chunkList` (structural recursion so that the
kernel can evaluate it). -/
def chunkGo (m : Nat) : Nat → List α → List (List α)
  | 0, _ => []
  | _, [] => []
  | fuel + 1, x :: xs => (x :: xs.take m) :: chunkGo m fuel (xs.drop m)

/-- Split a list into chunks of `m + 1` elements (last chunk may be short). -/
def chunkList (m : Nat) (l : List α) : List (List α) := chunkGo m l.length l

/-- 32-bit left rotation. -/
def rotl32 (x n : Nat) : Nat :=
  ((x <<< n) ||| (x >>> (32 - n))) % 4294967296

/-- The 64 MD5 sine-table constants. -/
def mdK : List Nat :=
  [0xd76aa478, 0xe8c7b756, 0x242070db, 0xc1bdceee,
   0xf57c0faf, 0x4787c62a, 0xa8304613, 0xfd469501,
   0x698098d8, 0x8b44f7af, 0xffff5bb1, 0x895cd7be,
   0x6b901122, 0xfd987193, 0xa679438e, 0x49b40821,
   0xf61e2562, 0xc040b340, 0x265e5a51, 0xe9b6c7aa,
   0xd62f105d, 0x02441453, 0xd8a1e681, 0xe7d3fbc8,
   0x21e1cde6, 0xc33707d6, 0xf4d50d87, 0x455a14ed,
   0xa9e3e905, 0xfcefa3f8, 0x676f02d9, 0x8d2a4c8a,
   0xfffa3942, 0x8771f681, 0x6d9d6122, 0xfde5380c,
   0xa4beea44, 0x4bdecfa9, 0xf6bb4b60, 0xbebfbc70,
   0x289b7ec6, 0xeaa127fa, 0xd4ef3085, 0x04881d05,
   0xd9d4d039, 0xe6db99e5, 0x1fa27cf8, 0xc4ac5665,
   0xf4292244, 0x432aff97, 0xab9423a7, 0xfc93a039,
   0x655b59c3, 0x8f0ccc92, 0xffeff47d, 0x85845dd1,
   0x6fa87e4f, 0xfe2ce6e0, 0xa3014314, 0x4e0811a1,
   0xf7537e82, 0xbd3af235, 0x2ad7d2bb, 0xeb86d391]

/-- The 64 MD5 per-round rotation amounts. -/
def mdS : List Nat :=
  [7, 12, 17, 22, 7, 12, 17, 22, 7, 12, 17, 22, 7, 12, 17, 22,
   5, 9, 14, 20, 5, 9, 14, 20, 5, 9, 14, 20, 5, 9, 14, 20,
   4, 11, 16, 23, 4, 11, 16, 23, 4, 11, 16, 23, 4, 11, 16, 23,
   6, 10, 15, 21, 6, 10, 15, 21, 6, 10, 15, 21, 6, 10, 15, 21]

/-- One MD5 round step on state `(a, b, c, d)` with message words `M`. -/
def md5Step (M : List Nat) (st : Nat × Nat × Nat × Nat) (i : Nat) :
    Nat × Nat × Nat × Nat :=
  let a := st.1
  let b := st.2.1
  let c := st.2.2.1
  let d := st.2.2.2
  let f :=
    if i < 16 then (b &&& c) ||| ((0xffffffff ^^^ b) &&& d)
    else if i < 32 then (d &&& b) ||| ((0xffffffff ^^^ d) &&& c)
    else if i < 48 then b ^^^ c ^^^ d
    else c ^^^ (b ||| (0xffffffff ^^^ d))
  let g :=
    if i < 16 then i
    else if i < 32 then (5 * i + 1) % 16
    else if i < 48 then (3 * i + 5) % 16
    else (7 * i) % 16
  let tmp := (f + a + mdK.getD i 0 + M.getD g 0) % 4294967296
  (d, (b + rotl32 tmp (mdS.getD i 0)) % 4294967296, b, c)

/-- Little-endian 32-bit word from up to four bytes. -/
def leWord (bs : List Nat) : Nat :=
  bs.getD 0 0 + bs.getD 1 0 * 256 + bs.getD 2 0 * 65536 + bs.getD 3 0 * 16777216

/-- Four little-endian bytes of a 32-bit word. -/
def wordLE (w : Nat) : List Nat :=
  [w % 256, w / 256 % 256, w / 65536 % 256, w / 16777216 % 256]

/-- Compress one 64-byte block into the running MD5 state. -/
def md5Block (st : Nat × Nat × Nat × Nat) (block : List Nat) :
    Nat × Nat × Nat × Nat :=
  let M := (chunkList 3 block).map leWord
  let r := (List.range 64).foldl (md5Step M) st
  ((st.1 + r.1) % 4294967296, (st.2.1 + r.2.1) % 4294967296,
   (st.2.2.1 + r.2.2.1) % 4294967296, (st.2.2.2 + r.2.2.2) % 4294967296)

/-- MD5 padding: `0x80`, zeros to 56 mod 64, then the 64-bit little-endian
bit length. -/
def md5Pad (msg : List Nat) : List Nat :=
  let n := msg.length
  msg ++ 128 :: List.replicate ((119 - n % 64) % 64) 0
      ++ (wordLE ((8 * n) % 4294967296) ++ wordLE ((8 * n) / 4294967296 % 4294967296))

/-- MD5 digest (16 bytes) of a byte string. -/
def md5 (msg : List Nat) : List Nat :=
  let st := (chunkList 63 (md5Pad msg)).foldl md5Block
    (0x67452301, 0xefcdab89, 0x98badcfe, 0x10325476)
  wordLE st.1 ++ wordLE st.2.1 ++ wordLE st.2.2.1 ++ wordLE st.2.2.2

/-- Lowercase hex digits, for `QByteArray::toHex().toLower()`. -/
def hexLowerDict : List Nat :=
  [48, 49, 50, 51, 52, 53, 54, 55, 56, 57, 97, 98, 99, 100, 101, 102]

/-- Lowercase hex encoding of a byte string. -/
def toHexLower (bs : List Nat) : List Nat :=
  bs.foldr (fun b acc => hexLowerDict.getD (b % 256 / 16) 0 ::
                         hexLowerDict.getD (b % 16) 0 :: acc) []

/-- Model of `QByteArray::toBase64` (standard Base64, no line breaks). -/
def toBase64 (bs : List Nat) : List Nat := b64raw bs

/-! ## CRAM-MD5 (qsrmailtransport.cpp lines 1116-1150) -/

/-- `QsrMailTransportPrivate::cramMd5Mech`: the secret is the password, or
its MD5 when longer than 64 bytes; `padded` is
`secret.append(QByteArray(64, 0)).left(64)`; `ipad`/`opad` XOR the pad with
0x36/0x5c; the digest is `md5(opad ++ md5(ipad ++ text))` in lowercase hex,
and the reply is `base64(user ++ " " ++ digest)`. -/
def cramMd5Mech (challenge user pass : List Nat) : List Nat :=
  let secret := if 64 < pass.length then md5 pass else pass
  let text := fromBase64 challenge
  let padded := (secret ++ List.replicate 64 0).take 64
  let ipad := padded.map (fun b => b ^^^ 0x36)
  let opad := padded.map (fun b => b ^^^ 0x5c)
  let inner := ipad ++ text
  let outer := opad ++ md5 inner
  let result := toHexLower (md5 outer)
  toBase64 (user ++ 32 :: result)

/-- Modelled from the spec (§4.4.4, CRAM-MD5 bullet): let `key = pass` (or
`MD5(pass)` when longer than 64 bytes), right-pad `key` to 64 bytes with
zeros, `inner = key XOR 0x36*64`, `outer = key XOR 0x5c*64`, `text` the
base64-decoded challenge, `digest = MD5(outer || MD5(inner || text))`, reply
`base64(user || " " || lower_hex(digest))`. -/
def cramMd5SpecResponse (user pass challenge : List Nat) : List Nat :=
  let key := if 64 < pass.length then md5 pass else pass
  let key64 := key ++ List.replicate (64 - key.length) 0
  let inner := key64.map (fun b => b ^^^ 0x36)
  let outer := key64.map (fun b => b ^^^ 0x5c)
  let text := fromBase64 challenge
  let digest := md5 (outer ++ md5 (inner ++ text))
  toBase64 (user ++ 32 :: toHexLower digest)

/-- ASCII byte string of a Lean string literal (all literals used are
7-bit). -/
def strBytes (s : String) : List Nat := s.toList.map Char.toNat

/-! ## Transport data and `sendMessages` (qsrmailtransport.cpp / _p.h) -/

/-- FSM state enum, qsrmailtransport_p.h lines 39-61. -/
inductive TState where
  | idleState | resolvingState | resolvedState | connectingState | connectedState
  | bannerState | sessionInitState | tlsSetupState | encryptedState
  | encryptedSessionInitState | sessionSetupState | authState | readyToSendState
  | mailFromState | rcptToState | dataState | endOfMessageState | dataSentState
  | closingState | disconnectedState | finishedState
deriving DecidableEq, Repr

/-- `QsrMailTransport::AuthMech`. -/
inductive AuthMech where
  | disabledMech | autoSelectMech | cramMd5Mech | loginMech | plainMech
deriving DecidableEq, Repr

/-- `QsrMailTransport::TlsLevel`. -/
inductive TlsLevel where
  | tlsDisabled | tlsOptional | tlsRequired
deriving DecidableEq, Repr

/-- `QAbstractSocket::NetworkLayerProtocol`. -/
inductive NetProtocol where
  | ipv4 | ipv6 | anyIP | unknownProtocol
deriving DecidableEq, Repr

/-- Fields of `QsrMailTransportPrivate` (qsrmailtransport_p.h lines 120-159)
that the modelled operations read or write.  Queued transactions are
abstracted to `Unit` entries because `sendMessages` only tests emptiness and
takes the queue's size.  `timerInterval` records the interval the single-shot
timeout timer was started with (`none` while stopped). -/
structure TransportData where
  state : TState
  interrupted : Bool
  aborted : Bool
  reachedRTS : Bool
  authenticated : Bool
  crlfState : Nat
  hasStartTls : Bool
  hasAuth : Bool
  selectedAuthMech : AuthMech
  totalMessages : Nat
  processedMessages : Nat
  queue : List Unit
  authMech : AuthMech
  systemIdentifier : List Nat
  timeout : Int
  serverHostname : Option (List Nat)
  serverProtocol : NetProtocol
  serverAddress : Option Nat
  serverPort : Nat
  tlsLevel : TlsLevel
  timerInterval : Option Int
  responseValid : Bool
deriving DecidableEq, Repr

/-- The constructor's initializer list,
qsrmailtransport.cpp lines 405-428: note `timeout(6000)`. -/
def mkTransportPrivate : TransportData where
  state := .idleState
  interrupted := false
  aborted := false
  reachedRTS := false
  authenticated := false
  crlfState := 0
  hasStartTls := false
  hasAuth := false
  selectedAuthMech := .disabledMech
  totalMessages := 0
  processedMessages := 0
  queue := []
  authMech := .autoSelectMech
  systemIdentifier := strBytes "localhost"
  timeout := 6000
  serverHostname := none
  serverProtocol := .anyIP
  serverAddress := none
  serverPort := 25
  tlsLevel := .tlsOptional
  timerInterval := none
  responseValid := false

/-- `QsrMailTransport::setTimeout` (lines 1584-1588). -/
def setTimeout (d : TransportData) (t : Int) : TransportData := { d with timeout := t }

/-- `QsrMailTransport::timeout` (lines 1593-1597). -/
def timeoutValue (d : TransportData) : Int := d.timeout

/-- `QsrMailTransportPrivate::sendMessagesImpl` (lines 1238-1260): on an
empty queue only `finished` is emitted (second component); otherwise the FSM
state becomes `initState`, the counters and flags are reset, and the timer
is started with the configured timeout. -/
def sendMessagesImpl (d : TransportData) (initState : TState) : TransportData × Bool :=
  if d.queue.isEmpty then (d, true)
  else
    ({ d with
        state := initState
        totalMessages := d.queue.length
        processedMessages := 0
        responseValid := false
        interrupted := false
        aborted := false
        reachedRTS := false
        authenticated := false
        crlfState := 0
        timerInterval := some d.timeout }, false)

/-- `QsrMailTransport::sendMessages(const QString &, quint16, …)` overload
(lines 1682-1694): stores the connection parameters and starts the FSM in
`ResolvingState`. -/
def sendMessagesHost (d : TransportData) (hostname : List Nat) (port : Nat)
    (protocol : NetProtocol) : TransportData × Bool :=
  sendMessagesImpl
    { d with
        serverHostname := some hostname
        serverProtocol := protocol
        serverAddress := none
        serverPort := port }
    .resolvingState

/-- `QsrMailTransport::sendMessages(const QHostAddress &, quint16)` overload
(lines 1700-1711): stores the resolved address and starts the FSM in
`ConnectedState` (the argument passed on line 1710). -/
def sendMessagesAddr (d : TransportData) (address : Nat) (addrProtocol : NetProtocol)
    (port : Nat) : TransportData × Bool :=
  sendMessagesImpl
    { d with
        serverHostname := none
        serverProtocol := addrProtocol
        serverAddress := some address
        serverPort := port }
    .connectedState

/-- The only FSM state from which `_q_processStates` issues
`socket->connectToHost` (qsrmailtransport.cpp lines 752-757). -/
def connectToHostState : TState := .connectingState

/-! ## Transaction (qsrmailtransaction.cpp) -/

/-- `QsrMailTransaction::TransactionError`. -/
inductive TransactionError where
  | noError | noSenderError | noRecipientsError | responseError | connectionError
  | tlsRequiredError | resolverError | timeoutError | abortedError | dataError
deriving DecidableEq, Repr

/-- Signals a transaction object can emit. -/
inductive TSignal where
  | errorSignal (e : TransactionError)
  | finishedSignal
  | progressSignal (percent : Int)
deriving DecidableEq, Repr

/-- Observable transaction state: the error fields of
`QsrMailTransactionPrivate` plus the trace of emitted signals. -/
structure TransactionData where
  error : TransactionError
  errorText : Option String
  status : Nat
  emitted : List TSignal
deriving DecidableEq, Repr

/-- Constructor defaults (qsrmailtransaction.cpp lines 126-133). -/
def mkTransaction : TransactionData where
  error := .noError
  errorText := none
  status := 0
  emitted := []

/-- The default error texts of `QsrMailTransactionPrivate::setError`
(lines 158-208). -/
def defaultErrorText : TransactionError → String
  | .noError => "No error occured"
  | .noSenderError => "No sender/from has been specified"
  | .noRecipientsError => "No recipients have been specified"
  | .responseError => "Unexpected server response"
  | .connectionError =>
      "The connection timed out or the remote server unexpectedly closed the connection"
  | .tlsRequiredError => "TLS required but not available"
  | .resolverError => "Unable to resolve hostname"
  | .timeoutError => "Connection dropped by timeout"
  | .abortedError => "Message aborted."
  | .dataError => "Message cannot be rendered."

/-- `QsrMailTransactionPrivate::setError` (lines 158-208): store the code
and text, substituting the default text when the supplied text is null. -/
def setError (t : TransactionData) (code : TransactionError) (text : Option String) :
    TransactionData :=
  { t with
      error := code
      errorText := some (text.getD (defaultErrorText code)) }

/-- `QsrMailTransactionPrivate::finalize` (lines 142-150): emit `error`
when the code is not `NoError`, then emit `finished` - unconditionally, with
no already-finalised guard. -/
def finalize (t : TransactionData) : TransactionData :=
  let t1 := if t.error ≠ .noError
            then { t with emitted := t.emitted ++ [.errorSignal t.error] }
            else t
  { t1 with emitted := t1.emitted ++ [.finishedSignal] }

/-- `QsrMailTransaction::abort` (lines 399-404): unconditionally
`setError(AbortedError)` then `finalize()`. -/
def abortTransaction (t : TransactionData) : TransactionData :=
  finalize (setError t .abortedError none)

/-! ## Headers (qsrmailheaders.cpp) and header cooking (qsrmailmessage.cpp) -/

/-- Model of `QByteArray`: the content bytes plus the null flag
(a default-constructed array is null; `==` compares content only). -/
structure QBA where
  nul : Bool
  bytes : List Nat
deriving DecidableEq, Repr

/-- A non-null byte array. -/
def qba (bs : List Nat) : QBA := ⟨false, bs⟩

/-- A null byte array. -/
def qbaNull : QBA := ⟨true, []⟩

/-- `QsrMailHeaders::HeaderPair`. -/
abbrev HeaderPair := QBA × QBA

/-- `QsrMailHeaders::setHeader` (qsrmailheaders.cpp lines 58-79): no-op on
an empty name; removes every pair with the same name; a null value means
delete; otherwise the new pair is appended at the end. -/
def setHeader (hs : List HeaderPair) (name value : QBA) : List HeaderPair :=
  if name.bytes.isEmpty then hs
  else
    let removed := hs.filter (fun p => ¬ (p.1.bytes == name.bytes))
    if value.nul then removed else removed ++ [(name, value)]

/-- `QsrMailHeaders::appendHeader` (lines 88-97): always appends, except for
empty names or null values. -/
def appendHeader (hs : List HeaderPair) (name value : QBA) : List HeaderPair :=
  if name.bytes.isEmpty || value.nul then hs else hs ++ [(name, value)]

/-- `QsrMailHeaders::hasHeader` (lines 138-141): the source returns
`findHeader(name) == headers.constEnd()`, i.e. `true` exactly when NO header
with this name exists - the inverse of its documented meaning. -/
def hasHeader (hs : List HeaderPair) (name : QBA) : Bool :=
  (hs.find? (fun p => p.1.bytes == name.bytes)).isNone

/-- Message fields read by `cookHeaders`.  Address lists carry the
already-encoded on-wire byte form (`QsrMailAddress::toByteArray` is applied
at each use site); `date` is `none` for an invalid `QDateTime`; `subject`
is `none` for a null `QString`. -/
structure MessageData where
  headers : List HeaderPair
  fromA : List QBA
  toA : List QBA
  replyToA : List QBA
  ccA : List QBA
  bccA : List QBA
  date : Option Nat
  subject : Option String
  messageId : QBA
deriving DecidableEq, Repr

/-- `QsrMailMessagePrivate::cookHeaders` (qsrmailmessage.cpp lines 105-148).
`now` stands for `QDateTime::currentDateTime()`, `rfcDate` for
`QsrMailRfcTools::rfc2822Date`, `encWords` for
`QsrMailRfcTools::toEncodedWords` and `ua` for the default
`"QsrMail " QSRMAIL_VERSION_STR` user-agent value (the RFC helpers are
external collaborators, spec §1). -/
def cookHeaders (m : MessageData) (now : Nat) (rfcDate : Nat → QBA)
    (encWords : String → QBA) (ua : QBA) : List HeaderPair :=
  let r := m.headers
  let r := m.fromA.foldl (fun acc a => appendHeader acc (qba (strBytes "From")) a) r
  let r := m.toA.foldl (fun acc a => appendHeader acc (qba (strBytes "To")) a) r
  let r := m.replyToA.foldl (fun acc a => appendHeader acc (qba (strBytes "Reply-To")) a) r
  let r := m.ccA.foldl (fun acc a => appendHeader acc (qba (strBytes "Cc")) a) r
  let r := m.bccA.foldl (fun acc a => appendHeader acc (qba (strBytes "Bcc")) a) r
  let r :=
    match m.date with
    | some dt => setHeader r (qba (strBytes "Date")) (rfcDate dt)
    | none =>
      if ¬ hasHeader r (qba (strBytes "Date")) then
        setHeader r (qba (strBytes "Date")) (rfcDate now)
      else r
  let r :=
    match m.subject with
    | some s => setHeader r (qba (strBytes "Subject")) (encWords s)
    | none => r
  let r := setHeader r (qba (strBytes "Message-ID")) m.messageId
  if ¬ hasHeader r (qba (strBytes "User-Agent")) then
    setHeader r (qba (strBytes "User-Agent")) ua
  else r

/-! ## Recipient collection (qsrmailtransport.cpp lines 1289-1298) -/

/-- Content of the `QSet<QByteArray> rcpts` after the insert loop of
`setupTransaction`: `recipients` is `msg.to() ++ msg.cc() ++ msg.bcc()` in
encoded byte form.  A `QSet` is a hash set, so only the set of elements is
defined; its iteration order is unspecified. -/
def rcptsSet (recipients : List (List Nat)) : Finset (List Nat) :=
  recipients.foldl (fun s a => insert a s) ∅

/-! ## Concrete fixtures used by individual claims -/

/-- A message whose raw headers already contain a `User-Agent` entry and no
`Date` entry; no date property is set. -/
def msgWithUserAgent : MessageData where
  headers := [(qba (strBytes "User-Agent"), qba [88])]
  fromA := []
  toA := []
  replyToA := []
  ccA := []
  bccA := []
  date := none
  subject := none
  messageId := qba (strBytes "id")

/-- A message whose raw headers contain a `Date` entry (value byte 68) and
no date property. -/
def msgWithRawDate : MessageData where
  headers := [(qba (strBytes "Date"), qba [68])]
  fromA := []
  toA := []
  replyToA := []
  ccA := []
  bccA := []
  date := none
  subject := none
  messageId := qba (strBytes "id")

/-- The spec's QP safety test body ".start" CR LF "end " (scenario 5). -/
def qpSafetyInput : List Nat := [46, 115, 116, 97, 114, 116, 13, 10, 101, 110, 100, 32]

/-! # Theorems -/

/-! ### Helper lemmas -/

theorem foldl_insert_mem (rs : List (List Nat)) (s0 : Finset (List Nat)) (x : List Nat) :
    x ∈ rs.foldl (fun s a => insert a s) s0 ↔ x ∈ rs ∨ x ∈ s0 := by
  induction rs generalizing s0 with
  | nil => simp
  | cons a tl ih => simp [List.foldl_cons, ih, Finset.mem_insert]; tauto

theorem abortTransaction_eq (t : TransactionData) :
    abortTransaction t =
      { t with
          error := .abortedError
          errorText := some (defaultErrorText .abortedError)
          emitted := t.emitted ++ [.errorSignal .abortedError, .finishedSignal] } := by
  simp [abortTransaction, setError, finalize, Option.getD]

/-! ### Base64 structure lemmas -/

theorem foldW_nil (lw lc : Nat) : foldW lw lc [] = [] := rfl

theorem foldLc_nil (lw lc : Nat) : foldLc lw lc [] = lc := rfl

theorem foldW_cons (lw lc c : Nat) (cs : List Nat) :
    foldW lw lc (c :: cs) = (b64put lw lc c).1 ++ foldW lw (b64put lw lc c).2 cs := by
  simp only [foldW, b64put]
  split_ifs <;> simp

theorem foldLc_cons (lw lc c : Nat) (cs : List Nat) :
    foldLc lw lc (c :: cs) = foldLc lw (b64put lw lc c).2 cs := by
  simp only [foldLc, b64put]
  split_ifs <;> simp

theorem foldW_append (lw : Nat) (xs : List Nat) : ∀ (lc : Nat) (ys : List Nat),
    foldW lw lc (xs ++ ys) = foldW lw lc xs ++ foldW lw (foldLc lw lc xs) ys := by
  induction xs with
  | nil => intro lc ys; simp [foldW, foldLc]
  | cons c cs ih =>
    intro lc ys
    simp only [List.cons_append, foldW_cons, foldLc_cons, ih, List.append_assoc]

theorem b64put_foldW (lw lc c : Nat) :
    b64put lw lc c = (foldW lw lc [c], foldLc lw lc [c]) := by
  simp only [b64put, foldW, foldLc]
  split_ifs <;> rfl

theorem b64putQ_foldW (lw lc q s : Nat) :
    b64putQ lw lc q s = (foldW lw lc (enc4 q (3 - s)), foldLc lw lc (enc4 q (3 - s))) := by
  have hib : ∀ (p : Prop) (_ : Decidable p) (x a b : Nat),
      (if p then b64put lw x a else b64put lw x b) = b64put lw x (if p then a else b) := by
    intro p _ x a b; split <;> rfl
  simp only [b64putQ, hib]
  simp only [enc4, foldW_cons, foldLc_cons, foldW_nil, foldLc_nil]
  simp [List.append_assoc]

theorem b64encodeGo_foldW (lw : Nat) : ∀ (bs : List Nat) (lc : Nat),
    b64encodeGo lw lc bs = foldW lw lc (b64raw bs)
  | [], _ => rfl
  | [b0], lc => by
    simp [b64encodeGo, b64raw, b64putQ_foldW]
  | [b0, b1], lc => by
    simp [b64encodeGo, b64raw, b64putQ_foldW]
  | b0 :: b1 :: b2 :: rest, lc => by
    simp only [b64encodeGo, b64raw, b64putQ_foldW,
      b64encodeGo_foldW lw rest, foldW_append]

theorem foldW_zero (xs : List Nat) : ∀ lc, foldW 0 lc xs = xs := by
  induction xs with
  | nil => intro lc; rfl
  | cons c cs ih => intro lc; simp [foldW, ih]

/-- Every byte of the raw Base64 stream is an alphabet character or `=`. -/
theorem b64raw_mem : ∀ (bs : List Nat) (x : Nat), x ∈ b64raw bs → x ∈ b64dict ∨ x = 61 := by
  have hdict : ∀ j, j < 64 → b64dict.getD j 0 ∈ b64dict := by decide
  have henc : ∀ (q pad x : Nat), x ∈ enc4 q pad → x ∈ b64dict ∨ x = 61 := by
    intro q pad x hx
    have h1 := hdict (q / 262144 % 64) (Nat.mod_lt _ (by norm_num))
    have h2 := hdict (q / 4096 % 64) (Nat.mod_lt _ (by norm_num))
    have h3 := hdict (q / 64 % 64) (Nat.mod_lt _ (by norm_num))
    have h4 := hdict (q % 64) (Nat.mod_lt _ (by norm_num))
    simp only [enc4, List.mem_cons, List.not_mem_nil, or_false] at hx
    rcases hx with rfl | rfl | rfl | rfl
    · exact Or.inl h1
    · exact Or.inl h2
    · split <;> simp_all
    · split <;> simp_all
  intro bs
  induction bs using b64raw.induct with
  | case1 => intro x hx; simp [b64raw] at hx
  | case2 b0 => intro x hx; exact henc _ _ x hx
  | case3 b0 b1 => intro x hx; exact henc _ _ x hx
  | case4 b0 b1 b2 rest ih =>
    intro x hx
    simp only [b64raw, List.mem_append] at hx
    rcases hx with hx | hx
    · exact henc _ _ x hx
    · exact ih x hx

theorem b64raw_no_crlf (bs : List Nat) : 13 ∉ b64raw bs ∧ 10 ∉ b64raw bs := by
  have hd : (13 : Nat) ∉ b64dict ∧ (10 : Nat) ∉ b64dict := by decide
  constructor <;> intro hmem <;> rcases b64raw_mem bs _ hmem with h | h <;> simp_all

/-! ### Base64 decoding lemmas -/

theorem fromB64Go_skip (ch : Nat) (h : b64val ch = none) (buf nbits : Nat) (t : List Nat) :
    fromB64Go buf nbits (ch :: t) = fromB64Go buf nbits t := by
  simp [fromB64Go, h]

theorem fromB64Go_foldW (lw : Nat) : ∀ (xs : List Nat) (buf nbits lc : Nat),
    fromB64Go buf nbits (foldW lw lc xs) = fromB64Go buf nbits xs := by
  have h13 : b64val 13 = none := by decide
  have h10 : b64val 10 = none := by decide
  intro xs
  induction xs with
  | nil => intro buf nbits lc; rfl
  | cons c cs ih =>
    intro buf nbits lc
    simp only [foldW]
    split_ifs with h1 h2
    · cases hbv : b64val c with
      | none => simp only [fromB64Go, hbv, h13, h10, ih]
      | some d =>
        simp only [fromB64Go, hbv, h13, h10]
        split_ifs <;> simp only [ih]
    · cases hbv : b64val c with
      | none => simp only [fromB64Go, hbv, ih]
      | some d => simp only [fromB64Go, hbv]; split_ifs <;> simp only [ih]
    · cases hbv : b64val c with
      | none => simp only [fromB64Go, hbv, ih]
      | some d => simp only [fromB64Go, hbv]; split_ifs <;> simp only [ih]

theorem b64val_dict : ∀ j, j < 64 → b64val (b64dict.getD j 0) = some j := by decide

theorem fromB64_b64raw : ∀ bs : List Nat, (∀ b ∈ bs, b < 256) →
    fromB64Go 0 0 (b64raw bs) = bs := by
  have h61 : b64val 61 = none := by decide
  intro bs
  induction bs using b64raw.induct with
  | case1 => intro _; rfl
  | case2 b0 =>
    intro h
    have hb0 : b0 < 256 := h b0 (by simp)
    have hx1 := b64val_dict (b0 % 256 * 65536 / 262144 % 64) (Nat.mod_lt _ (by norm_num))
    have hx2 := b64val_dict (b0 % 256 * 65536 / 4096 % 64) (Nat.mod_lt _ (by norm_num))
    simp only [List.getD_eq_getElem?_getD] at hx1 hx2
    simp only [b64raw, enc4]
    norm_num
    rw [fromB64Go, hx1]
    norm_num
    rw [fromB64Go, hx2]
    norm_num [fromB64Go_skip 61 h61]
    exact ⟨by omega, by simp [fromB64Go]⟩
  | case3 b0 b1 =>
    intro h
    have hb0 : b0 < 256 := h b0 (by simp)
    have hb1 : b1 < 256 := h b1 (by simp)
    have hx1 := b64val_dict ((b0 % 256 * 65536 + b1 % 256 * 256) / 262144 % 64)
      (Nat.mod_lt _ (by norm_num))
    have hx2 := b64val_dict ((b0 % 256 * 65536 + b1 % 256 * 256) / 4096 % 64)
      (Nat.mod_lt _ (by norm_num))
    have hx3 := b64val_dict ((b0 % 256 * 65536 + b1 % 256 * 256) / 64 % 64)
      (Nat.mod_lt _ (by norm_num))
    simp only [List.getD_eq_getElem?_getD] at hx1 hx2 hx3
    simp only [b64raw, enc4]
    norm_num
    rw [fromB64Go, hx1]
    norm_num
    rw [fromB64Go, hx2]
    norm_num
    rw [fromB64Go, hx3]
    norm_num [fromB64Go_skip 61 h61]
    exact ⟨by omega, by omega, by simp [fromB64Go]⟩
  | case4 b0 b1 b2 rest ih =>
    intro h
    have hb0 : b0 < 256 := h b0 (by simp)
    have hb1 : b1 < 256 := h b1 (by simp)
    have hb2 : b2 < 256 := h b2 (by simp)
    have hrest : ∀ b ∈ rest, b < 256 := fun b hb => h b (by simp [hb])
    have hx1 := b64val_dict ((b0 % 256 * 65536 + b1 % 256 * 256 + b2 % 256) / 262144 % 64)
      (Nat.mod_lt _ (by norm_num))
    have hx2 := b64val_dict ((b0 % 256 * 65536 + b1 % 256 * 256 + b2 % 256) / 4096 % 64)
      (Nat.mod_lt _ (by norm_num))
    have hx3 := b64val_dict ((b0 % 256 * 65536 + b1 % 256 * 256 + b2 % 256) / 64 % 64)
      (Nat.mod_lt _ (by norm_num))
    have hx4 := b64val_dict ((b0 % 256 * 65536 + b1 % 256 * 256 + b2 % 256) % 64)
      (Nat.mod_lt _ (by norm_num))
    simp only [List.getD_eq_getElem?_getD] at hx1 hx2 hx3 hx4
    simp only [b64raw, enc4]
    norm_num
    rw [fromB64Go, hx1]
    norm_num
    rw [fromB64Go, hx2]
    norm_num
    rw [fromB64Go, hx3]
    norm_num
    rw [fromB64Go, hx4]
    norm_num [ih hrest]
    refine ⟨by omega, by omega, by omega, ?_⟩
    simp [Nat.mod_one, ih hrest]

/-! ### Base64 length and line lemmas -/

theorem b64raw_length : ∀ bs : List Nat, (b64raw bs).length = 4 * ((bs.length + 2) / 3)
  | [] => rfl
  | [_] => by simp [b64raw, enc4]
  | [_, _] => by simp [b64raw, enc4]
  | _ :: _ :: _ :: rest => by
    simp only [b64raw, List.length_append, List.length_cons, enc4,
      b64raw_length rest]
    simp
    omega

theorem foldW_length_count (lw : Nat) : ∀ (xs : List Nat) (lc : Nat), 13 ∉ xs →
    (foldW lw lc xs).length = xs.length + 2 * ((foldW lw lc xs).count 13) := by
  intro xs
  induction xs with
  | nil => intro lc _; rfl
  | cons c cs ih =>
    intro lc hmem
    have hc : ¬ c = 13 := fun h => hmem (by simp [h])
    have hcs : 13 ∉ cs := fun h => hmem (by simp [h])
    simp only [foldW]
    split_ifs with h1 h2 <;>
      simp [List.count_cons, hc, ih _ hcs] <;> omega

theorem crlfSplit_crlf (t : List Nat) : crlfSplit (13 :: 10 :: t) = [] :: crlfSplit t := by
  simp [crlfSplit]

theorem crlfSplit_cons_ne (c : Nat) (hc : ¬ c = 13) (t : List Nat) :
    crlfSplit (c :: t) =
      match crlfSplit t with
      | [] => [[c]]
      | l :: ls => (c :: l) :: ls := by
  cases t <;> simp [crlfSplit, hc]

theorem crlfSplit_nil : crlfSplit [] = [[]] := rfl

theorem foldW_lines (lw : Nat) (hlw : 0 < lw) : ∀ (xs : List Nat) (lc : Nat), lc < lw →
    (∀ x ∈ xs, ¬ x = 13) →
    ∃ L0 Ls, crlfSplit (foldW lw lc xs) = L0 :: Ls
      ∧ L0.length + lc ≤ lw ∧ ∀ l ∈ Ls, l.length ≤ lw := by
  intro xs
  induction xs with
  | nil =>
    intro lc hlc _
    exact ⟨[], [], rfl, by simp; omega, by simp⟩
  | cons c cs ih =>
    intro lc hlc hmem
    have hc13 : ¬ c = 13 := hmem c (by simp)
    have hcs : ∀ x ∈ cs, ¬ x = 13 := fun x hx => hmem x (by simp [hx])
    simp only [foldW, hlw, if_pos]
    split_ifs with h2
    · obtain ⟨L0, Ls, hsplit, hL0, hLs⟩ := ih 0 hlw hcs
      refine ⟨[c], L0 :: Ls, ?_, by simp; omega, ?_⟩
      · rw [crlfSplit_cons_ne c hc13, crlfSplit_crlf, hsplit]
      · intro l hl
        rcases List.mem_cons.mp hl with rfl | hl
        · omega
        · exact hLs l hl
    · obtain ⟨L0, Ls, hsplit, hL0, hLs⟩ := ih (lc + 1) (by omega) hcs
      refine ⟨c :: L0, Ls, ?_, by simp; omega, hLs⟩
      rw [crlfSplit_cons_ne c hc13, hsplit]

/-! ### Claims -/

/-- C1.  The claim says the `QHostAddress` overload of `sendMessages` puts
the FSM into the Connecting state so that `connectToHost` is issued.  In
the source the hostname overload does start in `ResolvingState`, but the
address overload passes `ConnectedState` to `sendMessagesImpl`
(qsrmailtransport.cpp line 1710), skipping the only state whose handler
calls `connectToHost` - contradicting `sendMessagesImpl`'s own documented
contract (lines 1225-1232) that the initial state is `ResolvingState` or
`ConnectingState`. -/
theorem sendMessages_address_overload_state (d : TransportData) (h : List Nat)
    (a p : Nat) (pr : NetProtocol) :
    (sendMessagesHost d h p pr).1.state
        = (if d.queue.isEmpty then d.state else .resolvingState)
    ∧ (sendMessagesAddr d a pr p).1.state
        = (if d.queue.isEmpty then d.state else .connectedState)
    ∧ TState.connectedState ≠ connectToHostState := by
  refine ⟨?_, ?_, by decide⟩ <;>
    · simp only [sendMessagesHost, sendMessagesAddr, sendMessagesImpl]
      split <;> simp_all

/-- C3.  The claim says the default timeout is 60000 ms.  The constructor
initialises `timeout(6000)` (qsrmailtransport.cpp line 423), so a fresh
transport reports 6000 and `sendMessagesImpl` starts the dialogue timer
with 6000 ms - even though `setTimeout`'s documentation (lines 1576-1582)
promises a 60000 ms default. -/
theorem default_timeout_is_6000 :
    timeoutValue mkTransportPrivate = 6000
    ∧ mkTransportPrivate.timeout ≠ 60000
    ∧ (sendMessagesImpl { mkTransportPrivate with queue := [()] }
          .resolvingState).1.timerInterval = some 6000 := by
  decide

/-- C4 counterexample.  A transaction finalised once (with `NoError`) and
then aborted: `abort` changes the error kind to `AbortedError` and emits
`error` and a second `finished`, so abort on a finalised transaction is not
a no-op and `finished` is not emitted exactly once. -/
theorem abort_after_finalize_counterexample :
    (abortTransaction (finalize mkTransaction)).error ≠ (finalize mkTransaction).error
    ∧ (finalize mkTransaction).emitted.count TSignal.finishedSignal = 1
    ∧ (abortTransaction (finalize mkTransaction)).emitted.count TSignal.finishedSignal = 2
    ∧ (abortTransaction (finalize mkTransaction)).emitted.count
        (TSignal.errorSignal .abortedError) = 1 := by
  decide

/-- C4 as amended.  `finalize` emits `finished` exactly once per
invocation, but `QsrMailTransaction::abort` is unguarded: on any
transaction - already finalised or not - it overwrites the error kind with
`AbortedError` (with the default text) and emits `error(AbortedError)`
followed by another `finished`. -/
theorem finalize_once_abort_refinalizes (t : TransactionData) :
    (finalize t).emitted.count TSignal.finishedSignal
        = t.emitted.count TSignal.finishedSignal + 1
    ∧ abortTransaction t =
        { t with
            error := .abortedError
            errorText := some (defaultErrorText .abortedError)
            emitted := t.emitted ++ [.errorSignal .abortedError, .finishedSignal] } := by
  constructor
  · simp only [finalize]
    split <;> simp [List.count_append]
  · exact abortTransaction_eq t

/-- C5.  The claim describes the documented Date/User-Agent cooking.  Since
`hasHeader` returns `findHeader(name) == constEnd()` (true exactly when the
header is absent, inverting its own doc comment, qsrmailheaders.cpp lines
132-141), `cookHeaders` inverts both conditions: with no date property and
no raw `Date`, NO Date header is produced at all, while a raw `User-Agent`
is REPLACED by the default identifier; and a raw `Date` header (date
property unset) is replaced by the current time instead of being kept. -/
theorem cookHeaders_inverted_hasHeader (rfcD : Nat → List Nat) (encW : String → QBA)
    (uaBytes : List Nat) (now : Nat) :
    cookHeaders msgWithUserAgent now (fun t => qba (rfcD t)) encW (qba uaBytes)
        = [(qba (strBytes "Message-ID"), qba (strBytes "id")),
           (qba (strBytes "User-Agent"), qba uaBytes)]
    ∧ cookHeaders msgWithRawDate now (fun t => qba (rfcD t)) encW (qba uaBytes)
        = [(qba (strBytes "Date"), qba (rfcD now)),
           (qba (strBytes "Message-ID"), qba (strBytes "id"))] := by
  constructor <;> rfl

/-- C6.  The RCPT TO recipients are collected by inserting the encoded byte
form of every to/cc/bcc address into a `QSet<QByteArray>`
(qsrmailtransport.cpp lines 1289-1298): the membership of the resulting set
is exactly the union of the three lists keyed by encoded bytes, but a
`QSet` is a hash set, so the claimed insertion-order iteration does not
exist in the source. -/
theorem rcptsSet_membership (toA ccA bccA : List (List Nat)) (x : List Nat) :
    x ∈ rcptsSet (toA ++ ccA ++ bccA) ↔ x ∈ toA ∨ x ∈ ccA ∨ x ∈ bccA := by
  simp [rcptsSet, foldl_insert_mem]
  tauto

/-- C8.  On the spec's own QP safety vector ".start" CR LF "end " the
leading dot is encoded as `=2E`, but the trailing space is never emitted at
all: the encoder reads it, fails the two-byte peek-ahead, pushes it back
and returns, and every further `readData` returns 0 bytes with the encoder
never at end - the output never contains `=20`. -/
theorem qp_trailing_space_withheld :
    qpReadData false 76 qpSafetyInput 1000 0
        = ([61, 50, 69, 115, 116, 97, 114, 116, 13, 10, 101, 110, 100], [32], 3)
    ∧ qpReadData false 76 [32] 1000 3 = ([], [32], 3)
    ∧ deviceAtEndRA [32] = false
    ∧ ¬ [61, 50, 48].IsInfix (qpReadData false 76 qpSafetyInput 1000 0).1
    ∧ [61, 50, 69].IsPrefix (qpReadData false 76 qpSafetyInput 1000 0).1 := by
  refine ⟨by decide, by decide, by decide, by decide, by decide⟩

/-- C10.  Whenever the next device byte is TAB or SPACE and fewer than two
further bytes can be peeked past it, `readDataImpl` pushes the byte back
and returns with nothing consumed and nothing written (qsrmailqpencoder.cpp
lines 129-139), and the device is not at end; the state being unchanged,
every subsequent call returns 0 as well and the input is never fully
encoded. -/
theorem qp_space_peek_stall (tm : Bool) (lw : Nat) (maxlen : Int) (lc : Nat)
    (c : Nat) (rest : List Nat) (hc : c = 9 ∨ c = 32) (hr : rest.length < 2) :
    qpReadData tm lw (c :: rest) maxlen lc = ([], c :: rest, lc)
    ∧ deviceAtEndRA (c :: rest) = false := by
  have hc9 : (c == 9 || c == 32) = true := by
    rcases hc with rfl | rfl <;> decide
  constructor
  · match rest, hr with
    | [], _ => simp [qpReadData, qpReadDataGo, hc9]
    | [r1], _ => simp [qpReadData, qpReadDataGo, hc9]
  · simp [deviceAtEndRA]

/-- C10 witness: input consisting of a single space. -/
theorem qp_space_peek_stall_witness :
    qpReadData false 76 [32] 1000 0 = ([], [32], 0)
    ∧ deviceAtEndRA [32] = false :=
  qp_space_peek_stall false 76 1000 0 32 [] (Or.inr rfl) (by decide)

set_option maxRecDepth 40000 in
/-- C2.  For all inputs the CRAM-MD5 response of
`QsrMailTransportPrivate::cramMd5Mech` equals the spec's formula
base64(user || " " || lower_hex(MD5(outer || MD5(inner || text)))) with
text the base64-decoded challenge, key the password (MD5 of it when longer
than 64 bytes) zero-padded to 64 bytes and inner/outer its XOR with
0x36/0x5c; and on the RFC 2195 reference vector (user "tim", password
"tanstaaftanstaaf") the response equals
base64("tim b913a602c7eda7a495b4e6e7334d3890"). -/
theorem cramMd5_spec_and_rfc2195_vector :
    (∀ user pass challenge : List Nat,
        cramMd5Mech challenge user pass = cramMd5SpecResponse user pass challenge)
    ∧ cramMd5Mech (toBase64 (strBytes "<1896.697170952@postoffice.reston.mci.net>"))
        (strBytes "tim") (strBytes "tanstaaftanstaaf")
      = toBase64 (strBytes "tim b913a602c7eda7a495b4e6e7334d3890") := by
  constructor
  · intro user pass challenge
    have hpad : ∀ key : List Nat, key.length ≤ 64 →
        (key ++ List.replicate 64 0).take 64 = key ++ List.replicate (64 - key.length) 0 := by
      intro key hk
      rw [List.take_append_eq_append_take, List.take_of_length_le hk, List.take_replicate]
      have hmin : min (64 - key.length) 64 = 64 - key.length := by omega
      rw [hmin]
    have hlen : (if 64 < pass.length then md5 pass else pass).length ≤ 64 := by
      split
      · simp [md5, wordLE]
      · omega
    simp only [cramMd5Mech, cramMd5SpecResponse]
    rw [hpad _ hlen]
  · decide

/-- C7.  Base64 encoder round-trip and shape: for every byte sequence, the
decoded concatenated output is the input again, the output length is
ceil(n/3)*4 plus two bytes per inserted CRLF, and with a positive line
width no line between CRLF insertions exceeds the line width. -/
theorem base64_roundtrip_length_lines (lw : Nat) (bs : List Nat)
    (h : ∀ b ∈ bs, b < 256) :
    fromBase64 (b64encodeAll lw bs) = bs
    ∧ (b64encodeAll lw bs).length
        = 4 * ((bs.length + 2) / 3) + 2 * ((b64encodeAll lw bs).count 13)
    ∧ (0 < lw → ∀ l ∈ crlfSplit (b64encodeAll lw bs), l.length ≤ lw) := by
  have hb : b64encodeAll lw bs = foldW lw 0 (b64raw bs) := b64encodeGo_foldW lw bs 0
  have hnc := b64raw_no_crlf bs
  refine ⟨?_, ?_, ?_⟩
  · rw [hb]
    unfold fromBase64
    rw [fromB64Go_foldW]
    exact fromB64_b64raw bs h
  · rw [hb, foldW_length_count lw _ 0 hnc.1, b64raw_length]
  · intro hlw l hl
    rw [hb] at hl
    have hmem : ∀ x ∈ b64raw bs, ¬ x = 13 := by
      intro x hx h13
      exact hnc.1 (h13 ▸ hx)
    obtain ⟨L0, Ls, hsplit, hL0, hLs⟩ := foldW_lines lw hlw (b64raw bs) 0 hlw hmem
    rw [hsplit] at hl
    rcases List.mem_cons.mp hl with rfl | hl
    · omega
    · exact hLs l hl

/-- C7 witness: the five-byte input 72 105 33 0 255 at line width 4. -/
theorem base64_roundtrip_length_lines_witness :
    fromBase64 (b64encodeAll 4 [72, 105, 33, 0, 255]) = [72, 105, 33, 0, 255]
    ∧ (b64encodeAll 4 [72, 105, 33, 0, 255]).length
        = 4 * (([72, 105, 33, 0, 255].length + 2) / 3)
          + 2 * ((b64encodeAll 4 [72, 105, 33, 0, 255]).count 13)
    ∧ (0 < 4 → ∀ l ∈ crlfSplit (b64encodeAll 4 [72, 105, 33, 0, 255]), l.length ≤ 4) :=
  base64_roundtrip_length_lines 4 [72, 105, 33, 0, 255] (by decide)

/-- C9.  With `line_width = 0` the Base64 encoder indeed never inserts a
CRLF (its `put` tests `lineWidth > 0` first).  The QP encoder does the
opposite of the claim: its soft-break test
`(lineChars + (isPrintable ? 2 : 4)) >= lineWidth` is always true at width
0, so a soft break `=` CR LF is emitted before every character - here the
two-byte input "AB" yields "=" CR LF "A" "=" CR LF "B" - although
`setLineWidth`'s documentation says zero disables line wrapping. -/
theorem lineWidth_zero_folding (bs : List Nat) :
    13 ∉ b64encodeAll 0 bs ∧ 10 ∉ b64encodeAll 0 bs
    ∧ qpReadData false 0 [65, 66] 1000 0 = ([61, 13, 10, 65, 61, 13, 10, 66], [], 1)
    ∧ [61, 13, 10].IsInfix (qpReadData false 0 [65, 66] 1000 0).1 := by
  have hb : b64encodeAll 0 bs = b64raw bs := by
    have h1 : b64encodeAll 0 bs = foldW 0 0 (b64raw bs) := b64encodeGo_foldW 0 bs 0
    rw [h1, foldW_zero]
  refine ⟨?_, ?_, by decide, by decide⟩ <;> rw [hb]
  · exact (b64raw_no_crlf bs).1
  · exact (b64raw_no_crlf bs).2

end QsrMail
